import Mathlib

/-!
Verification of the ExpressionMatrix2 similar-pairs core.

This file gives a shallow embedding of the data model and operations of the
`SimilarPairs` bounded top-k store, the cell-id translation functions, the
degenerate-case handling of the cell-similarity metric, the named-artifact
removal operation, and the `ClusterGraph` constructor, together with theorems
settling the specification claims about them.

Sources embedded directly:
  - `src/src/SimilarPairs.hpp` : the inline member functions
    (`operator[]`, `size`, `getGlobalCellId`, `getLocalCellId`, `cellCount`).
  - `src/src/ClusterGraph.cpp` : the `ClusterGraph` constructor.

The out-of-line member functions of `SimilarPairs` (the `add*` family,
`exists`, `sort`) and of `ExpressionMatrix` (`computeCellSimilarity`,
`removeSimilarPairs`) live in translation units that are not among the
available sources; those are modelled from the specification, as indicated by
their doc comments.

Machine floating-point similarity values are modelled by integers: every claim
settled here about similarity values depends only on their linear order.
Cell ids (`uint32_t`) are modelled by `Nat`; the `invalidCellId` sentinel is
`0xFFFFFFFF`, the value `std::numeric_limits<uint32_t>::max()`.
-/

namespace ExpressionMatrix2

/-- Cell ids (`CellId` is `uint32_t` in `Ids.hpp`), modelled as `Nat`. -/
abbrev CellId := Nat

/-- The sentinel returned by `getLocalCellId` when a global id is not in the
cell set: `std::numeric_limits<uint32_t>::max()`. -/
def invalidCellId : CellId := 4294967295

/-- The type used to store a cell similarity (`float` in the source, modelled
by `ℤ`: only the linear order on similarity values matters to the claims). -/
abbrev CellSimilarity := ℤ

/-- `SimilarPairs::Pair`: a stored pair, the first cell being implied. -/
structure Pair where
  cellId : CellId
  similarity : CellSimilarity
deriving DecidableEq, Repr

/-- A default `Pair` used for out-of-range reads in the embedding. -/
def dummyPair : Pair := ⟨0, 0⟩

/-- `SimilarPairs::getLocalCellId` (inline in `SimilarPairs.hpp`): the inverse
of `getGlobalCellId`, computed with `std::lower_bound` on the sorted cell set;
returns `invalidCellId` when the global id is not in the cell set.
`std::lower_bound` on a sorted range returns the first position whose value is
`≥` the searched value, here rendered as `List.findIdx`. -/
def getLocalCellId (cellSet : List CellId) (globalCellId : CellId) : CellId :=
  let i := cellSet.findIdx (fun x => decide (globalCellId ≤ x))
  if h : i < cellSet.length then
    if cellSet.get ⟨i, h⟩ = globalCellId then i else invalidCellId
  else invalidCellId

/-- `SimilarPairs::getGlobalCellId` (inline in `SimilarPairs.hpp`): asserts
`localCellId < cellSet.size()` (`CZI_ASSERT`), then indexes the cell set.
The assertion failure is modelled as `none`. -/
def getGlobalCellId (cellSet : List CellId) (localCellId : CellId) : Option CellId :=
  if h : localCellId < cellSet.length then some (cellSet.get ⟨localCellId, h⟩)
  else none

/-- On a sorted list containing `g`, `findIdx` of the `lower_bound` predicate
lands on an occurrence of `g`. -/
theorem findIdx_lowerBound_of_mem :
    ∀ (l : List CellId), List.Sorted (· < ·) l → ∀ g : CellId, g ∈ l →
      ∃ h : l.findIdx (fun x => decide (g ≤ x)) < l.length,
        l.get ⟨l.findIdx (fun x => decide (g ≤ x)), h⟩ = g := by
  intro l
  induction l with
  | nil => intro _ g hg; exact absurd hg (List.not_mem_nil g)
  | cons a t ih =>
    intro hs g hg
    rcases List.sorted_cons.mp hs with ⟨ha, ht⟩
    rcases List.mem_cons.mp hg with hga | hgt
    · subst hga
      have : (g :: t).findIdx (fun x => decide (g ≤ x)) = 0 := by
        rw [List.findIdx_cons]; simp
      rw [this]
      exact ⟨Nat.succ_pos _, rfl⟩
    · have hag : a < g := ha g hgt
      have hp : decide (g ≤ a) = false := by
        simp only [decide_eq_false_iff_not]
        exact not_le_of_lt hag
      rcases ih ht g hgt with ⟨h', hget⟩
      have hidx : (a :: t).findIdx (fun x => decide (g ≤ x)) =
          t.findIdx (fun x => decide (g ≤ x)) + 1 := by
        rw [List.findIdx_cons, hp]; rfl
      rw [hidx]
      exact ⟨Nat.succ_lt_succ h', hget⟩

/-- C3: for every global cell id `g` in the store's sorted duplicate-free cell
set, `getGlobalCellId (getLocalCellId g) = g`; for every `g` not in the cell
set, `getLocalCellId g` returns the `invalidCellId` sentinel. -/
theorem localGlobalRoundTrip (cellSet : List CellId)
    (hs : List.Sorted (· < ·) cellSet) (g : CellId) :
    (g ∈ cellSet → getGlobalCellId cellSet (getLocalCellId cellSet g) = some g) ∧
    (g ∉ cellSet → getLocalCellId cellSet g = invalidCellId) := by
  constructor
  · intro hg
    rcases findIdx_lowerBound_of_mem cellSet hs g hg with ⟨h, hget⟩
    unfold getLocalCellId
    simp only [dif_pos h, if_pos hget]
    unfold getGlobalCellId
    simp only [dif_pos h, hget]
  · intro hg
    unfold getLocalCellId
    by_cases h : cellSet.findIdx (fun x => decide (g ≤ x)) < cellSet.length
    · simp only [dif_pos h]
      have : ¬ cellSet.get ⟨cellSet.findIdx (fun x => decide (g ≤ x)), h⟩ = g := by
        intro heq
        exact hg (heq ▸ List.get_mem cellSet _ h)
      simp only [if_neg this]
    · simp only [dif_neg h]

/-- Witness for C3 at a concrete sorted cell set. -/
theorem localGlobalRoundTrip_witness :
    getGlobalCellId [2, 5, 9] (getLocalCellId [2, 5, 9] 5) = some 5 ∧
    getLocalCellId [2, 5, 9] 4 = invalidCellId :=
  ⟨(localGlobalRoundTrip [2, 5, 9] (by decide) 5).1 (by decide),
   (localGlobalRoundTrip [2, 5, 9] (by decide) 4).2 (by decide)⟩

/-- `SimilarPairs::CellInfo` together with the `k` slots reserved for one cell
(`SimilarPairs.hpp` lines 164-178): `slots` holds the `usedCount` valid entries
of the cell's region of the flat pair array, in storage order;
`lowestSimilarityIndex` and `lowestSimilarity` are the per-cell metadata. -/
structure CellList where
  slots : List Pair
  lowestSimilarityIndex : Nat
  lowestSimilarity : CellSimilarity
deriving DecidableEq, Repr

/-- The state of a freshly created cell entry: no used slots. -/
def emptyCellList : CellList := ⟨[], 0, 0⟩

/-- The minimum similarity among a list of stored pairs (`0` for the empty
list, which never arises in use). -/
def lowestSimVal : List Pair → CellSimilarity
  | [] => 0
  | [p] => p.similarity
  | p :: q :: rest => min p.similarity (lowestSimVal (q :: rest))

/-- The index of the first stored pair attaining the minimum similarity. -/
def lowestSimIdx : List Pair → Nat
  | [] => 0
  | [_] => 0
  | p :: q :: rest =>
      if p.similarity ≤ lowestSimVal (q :: rest) then 0
      else lowestSimIdx (q :: rest) + 1

/-- Modelled from the spec: the low-level insertion
`SimilarPairs::addNoDuplicateCheck(CellId, Pair)`, whose out-of-line
definition (SimilarPairs.cpp) is not among the available sources. Per §4.2 of
the spec: while fewer than `k` pairs are stored the pair is appended and the
running minimum metadata updated; once `k` pairs are stored, a new pair is
admitted only if it beats the current minimum, in which case it overwrites the
slot at `lowestSimilarityIndex` and the minimum metadata is recomputed by a
scan; storage never grows past `k`. -/
def addPairToCell (k : Nat) (c : CellList) (p : Pair) : CellList :=
  if c.slots.length < k then
    if c.slots = [] ∨ p.similarity < c.lowestSimilarity then
      ⟨c.slots ++ [p], c.slots.length, p.similarity⟩
    else
      ⟨c.slots ++ [p], c.lowestSimilarityIndex, c.lowestSimilarity⟩
  else if c.lowestSimilarity < p.similarity then
    ⟨c.slots.set c.lowestSimilarityIndex p,
     lowestSimIdx (c.slots.set c.lowestSimilarityIndex p),
     lowestSimVal (c.slots.set c.lowestSimilarityIndex p)⟩
  else c

/-- Modelled from the spec: the duplicate-checked low-level insertion
`SimilarPairs::add(CellId, Pair)` (definition not among the available
sources). Per §4.2 it first scans the existing entries to avoid storing the
same partner twice. -/
def addPairToCellDup (k : Nat) (c : CellList) (p : Pair) : CellList :=
  if c.slots.any (fun q => decide (q.cellId = p.cellId)) then c
  else addPairToCell k c p

/-- Modelled from the spec: the heap-discipline low-level insertion
`SimilarPairs::addNoDuplicateCheckUsingHeap(CellId, Pair)` (definition not
among the available sources). Per §4.2 it admits a new candidate only if the
list is not full or the candidate beats the current minimum, replacing the
minimum; the heap array layout is represented here by the slot list, with the
metadata tracking the heap minimum. -/
def addPairToCellHeap (k : Nat) (c : CellList) (p : Pair) : CellList :=
  if c.slots.length < k then
    let slots := c.slots ++ [p]
    ⟨slots, lowestSimIdx slots, lowestSimVal slots⟩
  else if c.lowestSimilarity < p.similarity then
    let slots := c.slots.set (lowestSimIdx c.slots) p
    ⟨slots, lowestSimIdx slots, lowestSimVal slots⟩
  else c

/-- Modelled from the spec: the unchecked low-level insertion used by
`SimilarPairs::addUnsymmetricNoCheck` (definition not among the available
sources), which writes the pair into the next slot with no capacity or
duplicate check, the caller guaranteeing both. -/
def addPairToCellNoCheck (c : CellList) (p : Pair) : CellList :=
  if c.slots = [] ∨ p.similarity < c.lowestSimilarity then
    ⟨c.slots ++ [p], c.slots.length, p.similarity⟩
  else
    ⟨c.slots ++ [p], c.lowestSimilarityIndex, c.lowestSimilarity⟩

/-- The `SimilarPairs` store: capacity `k` (`Info::k`, fixed at creation) and
one `CellList` per cell of the cell set (`Info::cellCount` cells). -/
structure SimilarPairsStore where
  k : Nat
  cellLists : List CellList
deriving DecidableEq, Repr

/-- `SimilarPairs::cellCount`. -/
def SimilarPairsStore.cellCount (st : SimilarPairsStore) : Nat :=
  st.cellLists.length

/-- The per-cell data for a given local cell id (the cell's slot region
together with its `CellInfo` record). -/
def SimilarPairsStore.cellListAt (st : SimilarPairsStore) (i : Nat) : CellList :=
  st.cellLists.getD i emptyCellList

/-- A freshly created `SimilarPairs` store: capacity `k`, `n` cells, all slot
regions empty. -/
def emptyStore (k n : Nat) : SimilarPairsStore :=
  ⟨k, List.replicate n emptyCellList⟩

/-- Apply a per-cell update to the list of one cell, leaving all others
untouched. -/
def modifyCell (st : SimilarPairsStore) (i : Nat) (f : CellList → CellList) :
    SimilarPairsStore :=
  ⟨st.k, st.cellLists.set i (f (st.cellListAt i))⟩

namespace SimilarPairs

/-- Modelled from the spec: `SimilarPairs::addUnsymmetric` (definition not
among the available sources) inserts `(cellId1, similarity)` only into
`cellId0`'s list, with the duplicate-checked admission policy. Per §4.2/§7 of
the spec an out-of-range local id is a programming-error fault (fail fast),
modelled as `none`. -/
def addUnsymmetric (st : SimilarPairsStore) (cellId0 cellId1 : CellId)
    (similarity : CellSimilarity) : Option SimilarPairsStore :=
  if cellId0 < st.cellCount then
    some (modifyCell st cellId0 (fun c => addPairToCellDup st.k c ⟨cellId1, similarity⟩))
  else none

/-- Modelled from the spec: `SimilarPairs::addUnsymmetricNoDuplicateCheck`
(definition not among the available sources). -/
def addUnsymmetricNoDuplicateCheck (st : SimilarPairsStore)
    (cellId0 cellId1 : CellId) (similarity : CellSimilarity) :
    Option SimilarPairsStore :=
  if cellId0 < st.cellCount then
    some (modifyCell st cellId0 (fun c => addPairToCell st.k c ⟨cellId1, similarity⟩))
  else none

/-- Modelled from the spec: `SimilarPairs::addUnsymmetricNoDuplicateCheckUsingHeap`
(definition not among the available sources). -/
def addUnsymmetricNoDuplicateCheckUsingHeap (st : SimilarPairsStore)
    (cellId0 cellId1 : CellId) (similarity : CellSimilarity) :
    Option SimilarPairsStore :=
  if cellId0 < st.cellCount then
    some (modifyCell st cellId0 (fun c => addPairToCellHeap st.k c ⟨cellId1, similarity⟩))
  else none

/-- Modelled from the spec: `SimilarPairs::addUnsymmetricNoCheck` (definition
not among the available sources). -/
def addUnsymmetricNoCheck (st : SimilarPairsStore) (cellId0 cellId1 : CellId)
    (similarity : CellSimilarity) : Option SimilarPairsStore :=
  if cellId0 < st.cellCount then
    some (modifyCell st cellId0 (fun c => addPairToCellNoCheck c ⟨cellId1, similarity⟩))
  else none

/-- Modelled from the spec: the symmetric `SimilarPairs::add` (definition not
among the available sources) attempts insertion into `cellId0`'s list for
partner `cellId1` and into `cellId1`'s list for partner `cellId0`, with the
duplicate-checked admission policy. -/
def add (st : SimilarPairsStore) (cellId0 cellId1 : CellId)
    (similarity : CellSimilarity) : Option SimilarPairsStore :=
  if cellId0 < st.cellCount ∧ cellId1 < st.cellCount then
    some (modifyCell
      (modifyCell st cellId0 (fun c => addPairToCellDup st.k c ⟨cellId1, similarity⟩))
      cellId1 (fun c => addPairToCellDup st.k c ⟨cellId0, similarity⟩))
  else none

/-- Modelled from the spec: `SimilarPairs::exists` (definition not among the
available sources): a linear scan of `cellId0`'s current list for partner
`cellId1`; directional, not symmetric. (`exists` is a Lean keyword.) -/
def existsPair (st : SimilarPairsStore) (cellId0 cellId1 : CellId) : Bool :=
  (st.cellListAt cellId0).slots.any (fun q => decide (q.cellId = cellId1))

end SimilarPairs

/-- One insertion call made by a candidate strategy while populating the
store. -/
inductive InsertOp where
  | add (cellId0 cellId1 : CellId) (similarity : CellSimilarity)
  | addUnsymmetric (cellId0 cellId1 : CellId) (similarity : CellSimilarity)
deriving DecidableEq, Repr

/-- The similarity argument of an insertion call. -/
def InsertOp.similarity : InsertOp → CellSimilarity
  | .add _ _ s => s
  | .addUnsymmetric _ _ s => s

/-- Execute one insertion call on the store. -/
def applyOp (st : SimilarPairsStore) : InsertOp → Option SimilarPairsStore
  | .add c0 c1 s => SimilarPairs.add st c0 c1 s
  | .addUnsymmetric c0 c1 s => SimilarPairs.addUnsymmetric st c0 c1 s

/-- Execute a sequence of insertion calls on the store; a fail-fast fault of
any call aborts the run. -/
def runInserts (st : SimilarPairsStore) : List InsertOp → Option SimilarPairsStore
  | [] => some st
  | op :: rest => (applyOp st op).bind (fun st2 => runInserts st2 rest)

/-- Decreasing-similarity order on stored pairs, the order used by
`SimilarPairs::sort`. -/
def simGE (p q : Pair) : Prop := q.similarity ≤ p.similarity

instance : DecidableRel simGE :=
  fun p q => inferInstanceAs (Decidable (q.similarity ≤ p.similarity))

instance : IsTotal Pair simGE := ⟨fun p q => le_total q.similarity p.similarity⟩

instance : IsTrans Pair simGE := ⟨fun _ _ _ hab hbc => le_trans hbc hab⟩

/-- Sort one cell's stored pairs by decreasing similarity; the per-cell
metadata is left untouched (the store is frozen after sorting). -/
def sortCell (c : CellList) : CellList :=
  ⟨List.insertionSort simGE c.slots, c.lowestSimilarityIndex, c.lowestSimilarity⟩

/-- Modelled from the spec: `SimilarPairs::sort` (definition not among the
available sources) reorders each cell's list by decreasing similarity, called
once after population completes. -/
def SimilarPairs.sort (st : SimilarPairsStore) : SimilarPairsStore :=
  ⟨st.k, st.cellLists.map sortCell⟩

/-- Reading within bounds returns a list member. -/
theorem getD_mem {α : Type} (l : List α) (i : Nat) (d : α) (h : i < l.length) :
    l.getD i d ∈ l := by
  rw [List.getD_eq_getElem?_getD, List.getElem?_eq_getElem h]
  exact List.getElem_mem h

/-- `getD` and `get` agree within bounds. -/
theorem get_eq_getD {α : Type} (l : List α) (i : Nat) (d : α) (h : i < l.length) :
    l.get ⟨i, h⟩ = l.getD i d := by
  rw [List.getD_eq_getElem?_getD, List.getElem?_eq_getElem h]
  rfl

/-- Appending does not disturb reads below the original length. -/
theorem getD_append_lt {α : Type} (l : List α) (x : α) (i : Nat) (d : α)
    (h : i < l.length) : (l ++ [x]).getD i d = l.getD i d := by
  rw [List.getD_eq_getElem?_getD, List.getD_eq_getElem?_getD,
    List.getElem?_append_left h]

/-- Reading the appended position returns the appended element. -/
theorem getD_append_len {α : Type} (l : List α) (x : α) (d : α) :
    (l ++ [x]).getD l.length d = x := by
  rw [List.getD_eq_getElem?_getD, List.getElem?_concat_length]
  rfl

/-- Reading the overwritten position returns the new element. -/
theorem getD_set_self {α : Type} (l : List α) (i : Nat) (x : α) (d : α)
    (h : i < l.length) : (l.set i x).getD i d = x := by
  rw [List.getD_eq_getElem?_getD, List.getElem?_set_self h]
  rfl

/-- Overwriting one position does not disturb reads elsewhere. -/
theorem getD_set_ne {α : Type} (l : List α) (i j : Nat) (x : α) (d : α)
    (h : i ≠ j) : (l.set i x).getD j d = l.getD j d := by
  rw [List.getD_eq_getElem?_getD, List.getD_eq_getElem?_getD,
    List.getElem?_set_ne h]

/-- `lowestSimVal` bounds every stored similarity from below. -/
theorem lowestSimVal_le (l : List Pair) (p : Pair) (hp : p ∈ l) :
    lowestSimVal l ≤ p.similarity := by
  induction l with
  | nil => cases hp
  | cons q t ih =>
    cases t with
    | nil =>
      have hpq : p = q := List.mem_singleton.mp hp
      subst hpq
      simp [lowestSimVal]
    | cons r rest =>
      rcases List.mem_cons.mp hp with hpq | hpt
      · subst hpq
        show min p.similarity (lowestSimVal (r :: rest)) ≤ p.similarity
        exact min_le_left _ _
      · have h1 : lowestSimVal (q :: r :: rest) ≤ lowestSimVal (r :: rest) :=
          min_le_right _ _
        exact le_trans h1 (ih hpt)

/-- `lowestSimIdx` is a valid index of a nonempty list. -/
theorem lowestSimIdx_lt (l : List Pair) (h : l ≠ []) : lowestSimIdx l < l.length := by
  induction l with
  | nil => exact absurd rfl h
  | cons q t ih =>
    cases t with
    | nil => simp [lowestSimIdx]
    | cons r rest =>
      show (if q.similarity ≤ lowestSimVal (r :: rest) then 0
        else lowestSimIdx (r :: rest) + 1) < (q :: r :: rest).length
      by_cases hc : q.similarity ≤ lowestSimVal (r :: rest)
      · rw [if_pos hc]; exact Nat.succ_pos _
      · rw [if_neg hc]
        exact Nat.succ_lt_succ (ih (by simp))

/-- The slot at `lowestSimIdx` attains `lowestSimVal`. -/
theorem getD_lowestSimIdx (l : List Pair) (h : l ≠ []) :
    (l.getD (lowestSimIdx l) dummyPair).similarity = lowestSimVal l := by
  induction l with
  | nil => exact absurd rfl h
  | cons q t ih =>
    cases t with
    | nil => simp [lowestSimIdx, lowestSimVal]
    | cons r rest =>
      show ((q :: r :: rest).getD (if q.similarity ≤ lowestSimVal (r :: rest) then 0
          else lowestSimIdx (r :: rest) + 1) dummyPair).similarity
        = min q.similarity (lowestSimVal (r :: rest))
      by_cases hc : q.similarity ≤ lowestSimVal (r :: rest)
      · rw [if_pos hc]
        simp [min_eq_left hc]
      · rw [if_neg hc]
        rw [List.getD_cons_succ]
        rw [ih (by simp)]
        exact (min_eq_right (le_of_not_le hc)).symm

/-- The invariant maintained for each cell's slot region and `CellInfo`
metadata: at most `k` used slots; while any slot is used,
`lowestSimilarityIndex` is a valid slot index, the slot there attains
`lowestSimilarity`, and `lowestSimilarity` bounds every stored similarity
from below. -/
structure CellInvariant (k : Nat) (c : CellList) : Prop where
  len_le : c.slots.length ≤ k
  idx_lt : c.slots ≠ [] → c.lowestSimilarityIndex < c.slots.length
  idx_val : c.slots ≠ [] →
    (c.slots.getD c.lowestSimilarityIndex dummyPair).similarity = c.lowestSimilarity
  low_le : ∀ p ∈ c.slots, c.lowestSimilarity ≤ p.similarity

/-- A fresh cell entry satisfies the invariant. -/
theorem cellInvariant_empty (k : Nat) : CellInvariant k emptyCellList := by
  refine ⟨Nat.zero_le _, ?_, ?_, ?_⟩ <;> simp [emptyCellList]

/-- Under the invariant the tracked `lowestSimilarity` is the true minimum of
the stored similarities. -/
theorem cellInvariant_lowest_eq_min (k : Nat) (c : CellList)
    (h : CellInvariant k c) (hne : c.slots ≠ []) :
    c.lowestSimilarity = lowestSimVal c.slots := by
  apply le_antisymm
  · have h2 : c.slots.getD (lowestSimIdx c.slots) dummyPair ∈ c.slots :=
      getD_mem _ _ _ (lowestSimIdx_lt _ hne)
    have h3 := h.low_le _ h2
    rwa [getD_lowestSimIdx c.slots hne] at h3
  · have hidx := h.idx_lt hne
    have hmem : c.slots.getD c.lowestSimilarityIndex dummyPair ∈ c.slots :=
      getD_mem _ _ _ hidx
    have h4 := lowestSimVal_le c.slots _ hmem
    rwa [h.idx_val hne] at h4

/-- `addPairToCell` preserves the per-cell invariant. -/
theorem cellInvariant_addPairToCell (k : Nat) (hk : 0 < k) (c : CellList)
    (p : Pair) (h : CellInvariant k c) : CellInvariant k (addPairToCell k c p) := by
  unfold addPairToCell
  by_cases h1 : c.slots.length < k
  · rw [if_pos h1]
    by_cases h2 : c.slots = [] ∨ p.similarity < c.lowestSimilarity
    · rw [if_pos h2]
      refine ⟨?_, ?_, ?_, ?_⟩
      · simpa using Nat.succ_le_of_lt h1
      · intro _
        simp
      · intro _
        exact congrArg Pair.similarity (getD_append_len c.slots p dummyPair)
      · intro q hq
        rcases List.mem_append.mp hq with hq | hq
        · rcases h2 with he | hlt
          · rw [he] at hq; cases hq
          · exact le_trans (le_of_lt hlt) (h.low_le q hq)
        · rw [List.mem_singleton.mp hq]
    · rw [if_neg h2]
      push_neg at h2
      obtain ⟨hne, hge⟩ := h2
      refine ⟨?_, ?_, ?_, ?_⟩
      · simpa using Nat.succ_le_of_lt h1
      · intro _
        have := h.idx_lt hne
        simp only [List.length_append, List.length_cons, List.length_nil]
        omega
      · intro _
        rw [getD_append_lt c.slots p _ dummyPair (h.idx_lt hne)]
        exact h.idx_val hne
      · intro q hq
        rcases List.mem_append.mp hq with hq | hq
        · exact h.low_le q hq
        · rw [List.mem_singleton.mp hq]
          exact hge
  · rw [if_neg h1]
    have hlen : k ≤ c.slots.length := Nat.le_of_not_lt h1
    have hne : c.slots ≠ [] := by
      have : 0 < c.slots.length := lt_of_lt_of_le hk hlen
      exact List.ne_nil_of_length_pos this
    by_cases h3 : c.lowestSimilarity < p.similarity
    · rw [if_pos h3]
      have hidx := h.idx_lt hne
      have hlen' : (c.slots.set c.lowestSimilarityIndex p).length = c.slots.length :=
        List.length_set c.slots _ _
      have hne' : c.slots.set c.lowestSimilarityIndex p ≠ [] := by
        apply List.ne_nil_of_length_pos
        rw [hlen']
        exact lt_of_lt_of_le hk hlen
      refine ⟨?_, ?_, ?_, ?_⟩
      · rw [hlen']
        exact h.len_le
      · intro _
        exact lowestSimIdx_lt _ hne'
      · intro _
        exact getD_lowestSimIdx _ hne'
      · intro q hq
        exact lowestSimVal_le _ q hq
    · rw [if_neg h3]
      exact h

/-- `addPairToCellDup` preserves the per-cell invariant. -/
theorem cellInvariant_addPairToCellDup (k : Nat) (hk : 0 < k) (c : CellList)
    (p : Pair) (h : CellInvariant k c) : CellInvariant k (addPairToCellDup k c p) := by
  unfold addPairToCellDup
  by_cases hd : c.slots.any (fun q => decide (q.cellId = p.cellId))
  · rw [if_pos hd]; exact h
  · rw [if_neg hd]; exact cellInvariant_addPairToCell k hk c p h

/-- The store-wide invariant: every cell entry satisfies `CellInvariant`. -/
def storeInvariant (st : SimilarPairsStore) : Prop :=
  ∀ i : Nat, CellInvariant st.k (st.cellListAt i)

/-- A freshly created store satisfies the store invariant. -/
theorem storeInvariant_empty (k n : Nat) : storeInvariant (emptyStore k n) := by
  intro i
  have hcell : (emptyStore k n).cellListAt i = emptyCellList := by
    unfold emptyStore SimilarPairsStore.cellListAt
    rw [List.getD_eq_getElem?_getD]
    rcases Nat.lt_or_ge i n with hin | hin
    · simp [List.getElem?_replicate, hin]
    · rw [List.getElem?_eq_none (by simpa using hin)]
      rfl
  rw [hcell]
  exact cellInvariant_empty k

/-- `modifyCell` preserves the store invariant whenever the per-cell update
preserves the per-cell invariant. -/
theorem storeInvariant_modifyCell (st : SimilarPairsStore) (i : Nat)
    (f : CellList → CellList)
    (hf : ∀ c, CellInvariant st.k c → CellInvariant st.k (f c))
    (h : storeInvariant st) : storeInvariant (modifyCell st i f) := by
  intro j
  show CellInvariant st.k ((st.cellLists.set i (f (st.cellListAt i))).getD j emptyCellList)
  by_cases hij : i = j
  · subst hij
    by_cases hlen : i < st.cellLists.length
    · rw [getD_set_self _ _ _ _ hlen]
      exact hf _ (h i)
    · rw [List.set_eq_of_length_le (Nat.le_of_not_lt hlen)]
      exact h i
  · rw [getD_set_ne _ _ _ _ _ hij]
    exact h j

/-- A successful insertion call preserves the capacity and the store
invariant. -/
theorem storeInvariant_applyOp (st : SimilarPairsStore) (hk : 0 < st.k)
    (op : InsertOp) (st' : SimilarPairsStore) (happ : applyOp st op = some st')
    (h : storeInvariant st) : st'.k = st.k ∧ storeInvariant st' := by
  cases op with
  | add c0 c1 s =>
    have happ2 : SimilarPairs.add st c0 c1 s = some st' := happ
    unfold SimilarPairs.add at happ2
    by_cases hc : c0 < st.cellCount ∧ c1 < st.cellCount
    · rw [if_pos hc, Option.some.injEq] at happ2
      subst happ2
      refine ⟨rfl, ?_⟩
      apply storeInvariant_modifyCell
      · intro c hci
        exact cellInvariant_addPairToCellDup _ hk _ _ hci
      · apply storeInvariant_modifyCell
        · intro c hci
          exact cellInvariant_addPairToCellDup _ hk _ _ hci
        · exact h
    · rw [if_neg hc] at happ2
      cases happ2
  | addUnsymmetric c0 c1 s =>
    have happ2 : SimilarPairs.addUnsymmetric st c0 c1 s = some st' := happ
    unfold SimilarPairs.addUnsymmetric at happ2
    by_cases hc : c0 < st.cellCount
    · rw [if_pos hc, Option.some.injEq] at happ2
      subst happ2
      refine ⟨rfl, ?_⟩
      apply storeInvariant_modifyCell
      · intro c hci
        exact cellInvariant_addPairToCellDup _ hk _ _ hci
      · exact h
    · rw [if_neg hc] at happ2
      cases happ2

/-- A successful run of insertion calls preserves the capacity and the store
invariant. -/
theorem storeInvariant_runInserts :
    ∀ (ops : List InsertOp) (st st' : SimilarPairsStore), 0 < st.k →
      runInserts st ops = some st' → storeInvariant st →
      st'.k = st.k ∧ storeInvariant st' := by
  intro ops
  induction ops with
  | nil =>
    intro st st' _ hrun h
    unfold runInserts at hrun
    rw [Option.some.injEq] at hrun
    subst hrun
    exact ⟨rfl, h⟩
  | cons op rest ih =>
    intro st st' hk hrun h
    unfold runInserts at hrun
    cases happ : applyOp st op with
    | none => rw [happ] at hrun; cases hrun
    | some st1 =>
      rw [happ, Option.some_bind] at hrun
      obtain ⟨hk1, hinv1⟩ := storeInvariant_applyOp st hk op st1 happ h
      obtain ⟨hk2, hinv2⟩ := ih st1 st' (hk1 ▸ hk) hrun hinv1
      exact ⟨hk2.trans hk1, hinv2⟩

/-- C1: bounded top-k store invariant. After any sequence of `add` /
`addUnsymmetric` insertions into a freshly created store of capacity `k > 0`,
for every cell `i`: `usedCount(i) ≤ k`; whenever `usedCount(i) = k` the stored
`lowestSimilarity` equals the true minimum of the stored similarity values;
and an insertion into a full cell never grows storage past `k` slots — it
either leaves the cell unchanged or overwrites exactly the slot holding the
current minimum. -/
theorem topkStoreInvariant (k n : Nat) (hk : 0 < k) (ops : List InsertOp)
    (st : SimilarPairsStore) (hrun : runInserts (emptyStore k n) ops = some st)
    (i : Nat) :
    (st.cellListAt i).slots.length ≤ k ∧
    ((st.cellListAt i).slots.length = k →
      (st.cellListAt i).lowestSimilarity = lowestSimVal (st.cellListAt i).slots) ∧
    ((st.cellListAt i).slots.length = k → ∀ p : Pair,
      (addPairToCell k (st.cellListAt i) p).slots.length = k ∧
      ((st.cellListAt i).lowestSimilarity < p.similarity →
        ∃ hj : (st.cellListAt i).lowestSimilarityIndex < (st.cellListAt i).slots.length,
          ((st.cellListAt i).slots.get
              ⟨(st.cellListAt i).lowestSimilarityIndex, hj⟩).similarity
            = lowestSimVal (st.cellListAt i).slots ∧
          (addPairToCell k (st.cellListAt i) p).slots
            = (st.cellListAt i).slots.set (st.cellListAt i).lowestSimilarityIndex p) ∧
      (¬ (st.cellListAt i).lowestSimilarity < p.similarity →
        addPairToCell k (st.cellListAt i) p = st.cellListAt i)) := by
  obtain ⟨hkeq, hinv⟩ := storeInvariant_runInserts ops (emptyStore k n) st hk hrun
    (storeInvariant_empty k n)
  have hke : st.k = k := hkeq
  have hci : CellInvariant k (st.cellListAt i) := hke ▸ hinv i
  have hne_of_full : (st.cellListAt i).slots.length = k → (st.cellListAt i).slots ≠ [] := by
    intro hlen
    apply List.ne_nil_of_length_pos
    rw [hlen]
    exact hk
  refine ⟨hci.len_le, ?_, ?_⟩
  · intro hlen
    exact cellInvariant_lowest_eq_min k _ hci (hne_of_full hlen)
  · intro hlen p
    have hne := hne_of_full hlen
    have hnotlt : ¬ (st.cellListAt i).slots.length < k := by rw [hlen]; exact lt_irrefl k
    refine ⟨?_, ?_, ?_⟩
    · unfold addPairToCell
      rw [if_neg hnotlt]
      by_cases h3 : (st.cellListAt i).lowestSimilarity < p.similarity
      · rw [if_pos h3]
        rw [List.length_set]
        exact hlen
      · rw [if_neg h3]
        exact hlen
    · intro h3
      refine ⟨hci.idx_lt hne, ?_, ?_⟩
      · rw [get_eq_getD _ _ dummyPair (hci.idx_lt hne), hci.idx_val hne]
        exact cellInvariant_lowest_eq_min k _ hci hne
      · unfold addPairToCell
        rw [if_neg hnotlt, if_pos h3]
    · intro h3
      unfold addPairToCell
      rw [if_neg hnotlt, if_neg h3]

/-- Witness for C1: a concrete run with capacity 1 filling cell 0. -/
theorem topkStoreInvariant_witness :
    ((⟨1, [⟨[⟨1, 5⟩], 0, 5⟩, ⟨[], 0, 0⟩]⟩ : SimilarPairsStore).cellListAt 0).slots.length ≤ 1 :=
  (topkStoreInvariant 1 2 (by decide) [InsertOp.addUnsymmetric 0 1 5]
    ⟨1, [⟨[⟨1, 5⟩], 0, 5⟩, ⟨[], 0, 0⟩]⟩ (by decide) 0).1

/-- Every slot of the cell produced by `addPairToCell` comes from the previous
slots or is the inserted pair. -/
theorem mem_addPairToCell (k : Nat) (c : CellList) (p q : Pair)
    (hq : q ∈ (addPairToCell k c p).slots) : q ∈ c.slots ∨ q = p := by
  unfold addPairToCell at hq
  by_cases h1 : c.slots.length < k
  · rw [if_pos h1] at hq
    by_cases h2 : c.slots = [] ∨ p.similarity < c.lowestSimilarity
    · rw [if_pos h2] at hq
      rcases List.mem_append.mp hq with hq | hq
      · exact Or.inl hq
      · exact Or.inr (List.mem_singleton.mp hq)
    · rw [if_neg h2] at hq
      rcases List.mem_append.mp hq with hq | hq
      · exact Or.inl hq
      · exact Or.inr (List.mem_singleton.mp hq)
  · rw [if_neg h1] at hq
    by_cases h3 : c.lowestSimilarity < p.similarity
    · rw [if_pos h3] at hq
      exact List.mem_or_eq_of_mem_set hq
    · rw [if_neg h3] at hq
      exact Or.inl hq

/-- Every slot of the cell produced by `addPairToCellDup` comes from the
previous slots or is the inserted pair. -/
theorem mem_addPairToCellDup (k : Nat) (c : CellList) (p q : Pair)
    (hq : q ∈ (addPairToCellDup k c p).slots) : q ∈ c.slots ∨ q = p := by
  unfold addPairToCellDup at hq
  by_cases hd : c.slots.any (fun r => decide (r.cellId = p.cellId))
  · rw [if_pos hd] at hq
    exact Or.inl hq
  · rw [if_neg hd] at hq
    exact mem_addPairToCell k c p q hq

/-- The property that every stored similarity is at least `t`. -/
def storeSimBound (t : CellSimilarity) (st : SimilarPairsStore) : Prop :=
  ∀ i : Nat, ∀ p ∈ (st.cellListAt i).slots, t ≤ p.similarity

/-- A freshly created store stores nothing, so satisfies any bound. -/
theorem storeSimBound_empty (t : CellSimilarity) (k n : Nat) :
    storeSimBound t (emptyStore k n) := by
  intro i p hp
  have hcell : (emptyStore k n).cellListAt i = emptyCellList := by
    unfold emptyStore SimilarPairsStore.cellListAt
    rw [List.getD_eq_getElem?_getD]
    rcases Nat.lt_or_ge i n with hin | hin
    · simp [List.getElem?_replicate, hin]
    · rw [List.getElem?_eq_none (by simpa using hin)]
      rfl
  rw [hcell] at hp
  cases hp

/-- `modifyCell` preserves a similarity bound whenever the per-cell update
does. -/
theorem storeSimBound_modifyCell (t : CellSimilarity) (st : SimilarPairsStore)
    (i : Nat) (f : CellList → CellList)
    (hf : ∀ c, (∀ p ∈ c.slots, t ≤ p.similarity) → ∀ p ∈ (f c).slots, t ≤ p.similarity)
    (h : storeSimBound t st) : storeSimBound t (modifyCell st i f) := by
  intro j p hp
  have hp2 : p ∈ ((st.cellLists.set i (f (st.cellListAt i))).getD j emptyCellList).slots := hp
  by_cases hij : i = j
  · subst hij
    by_cases hlen : i < st.cellLists.length
    · rw [getD_set_self _ _ _ _ hlen] at hp2
      exact hf _ (h i) p hp2
    · rw [List.set_eq_of_length_le (Nat.le_of_not_lt hlen)] at hp2
      exact h i p hp2
  · rw [getD_set_ne _ _ _ _ _ hij] at hp2
    exact h j p hp2

/-- A successful insertion call with similarity at least `t` preserves the
bound `t` on all stored similarities. -/
theorem storeSimBound_applyOp (t : CellSimilarity) (st : SimilarPairsStore)
    (op : InsertOp) (hop : t ≤ op.similarity) (st' : SimilarPairsStore)
    (happ : applyOp st op = some st') (h : storeSimBound t st) :
    storeSimBound t st' := by
  cases op with
  | add c0 c1 s =>
    have hs : t ≤ s := hop
    have happ2 : SimilarPairs.add st c0 c1 s = some st' := happ
    unfold SimilarPairs.add at happ2
    by_cases hc : c0 < st.cellCount ∧ c1 < st.cellCount
    · rw [if_pos hc, Option.some.injEq] at happ2
      subst happ2
      apply storeSimBound_modifyCell
      · intro c hcb p hp
        rcases mem_addPairToCellDup _ c _ p hp with hp | hp
        · exact hcb p hp
        · rw [hp]; exact hs
      · apply storeSimBound_modifyCell
        · intro c hcb p hp
          rcases mem_addPairToCellDup _ c _ p hp with hp | hp
          · exact hcb p hp
          · rw [hp]; exact hs
        · exact h
    · rw [if_neg hc] at happ2
      cases happ2
  | addUnsymmetric c0 c1 s =>
    have hs : t ≤ s := hop
    have happ2 : SimilarPairs.addUnsymmetric st c0 c1 s = some st' := happ
    unfold SimilarPairs.addUnsymmetric at happ2
    by_cases hc : c0 < st.cellCount
    · rw [if_pos hc, Option.some.injEq] at happ2
      subst happ2
      apply storeSimBound_modifyCell
      · intro c hcb p hp
        rcases mem_addPairToCellDup _ c _ p hp with hp | hp
        · exact hcb p hp
        · rw [hp]; exact hs
      · exact h
    · rw [if_neg hc] at happ2
      cases happ2

/-- A successful run of insertion calls, all with similarity at least `t`,
preserves the bound `t` on all stored similarities. -/
theorem storeSimBound_runInserts (t : CellSimilarity) :
    ∀ (ops : List InsertOp) (st st' : SimilarPairsStore),
      (∀ op ∈ ops, t ≤ op.similarity) → runInserts st ops = some st' →
      storeSimBound t st → storeSimBound t st' := by
  intro ops
  induction ops with
  | nil =>
    intro st st' _ hrun h
    unfold runInserts at hrun
    rw [Option.some.injEq] at hrun
    subst hrun
    exact h
  | cons op rest ih =>
    intro st st' hops hrun h
    unfold runInserts at hrun
    cases happ : applyOp st op with
    | none => rw [happ] at hrun; cases hrun
    | some st1 =>
      rw [happ, Option.some_bind] at hrun
      have h1 := storeSimBound_applyOp t st op (hops op (List.mem_cons_self op rest)) st1 happ h
      exact ih st1 st' (fun o ho => hops o (List.mem_cons_of_mem op ho)) hrun h1

/-- Sorting the store sorts each cell's list pointwise. -/
theorem cellListAt_sort (st : SimilarPairsStore) (i : Nat) :
    (SimilarPairs.sort st).cellListAt i = sortCell (st.cellListAt i) := by
  show (st.cellLists.map sortCell).getD i emptyCellList
    = sortCell (st.cellLists.getD i emptyCellList)
  rw [List.getD_eq_getElem?_getD, List.getD_eq_getElem?_getD, List.getElem?_map]
  cases h : st.cellLists[i]? with
  | none => rfl
  | some c => rfl

/-- C2: after `sort()` on a store populated by a run of insertions all of
whose similarities are at least the strategy's `similarityThreshold` `t`
(the shared contract of the candidate strategies, §4.4 of the spec), each
cell's stored sequence of similarities is non-increasing and no stored
similarity is below `t`. -/
theorem sortedStoreSpec (k n : Nat) (t : CellSimilarity) (ops : List InsertOp)
    (st : SimilarPairsStore) (hrun : runInserts (emptyStore k n) ops = some st)
    (hops : ∀ op ∈ ops, t ≤ op.similarity) (i : Nat) :
    List.Sorted simGE ((SimilarPairs.sort st).cellListAt i).slots ∧
    ∀ p ∈ ((SimilarPairs.sort st).cellListAt i).slots, t ≤ p.similarity := by
  rw [cellListAt_sort]
  constructor
  · exact List.sorted_insertionSort simGE _
  · intro p hp
    have hperm := List.perm_insertionSort simGE (st.cellListAt i).slots
    have hmem : p ∈ (st.cellListAt i).slots := hperm.mem_iff.mp hp
    exact storeSimBound_runInserts t ops (emptyStore k n) st hops hrun
      (storeSimBound_empty t k n) i p hmem

/-- Witness for C2: a concrete populated and sorted store. -/
theorem sortedStoreSpec_witness :
    List.Sorted simGE
      (((SimilarPairs.sort
        (⟨2, [⟨[⟨1, 7⟩, ⟨2, 9⟩], 0, 7⟩, ⟨[], 0, 0⟩]⟩ : SimilarPairsStore)).cellListAt 0).slots) :=
  (sortedStoreSpec 2 2 5
    [InsertOp.addUnsymmetric 0 1 7, InsertOp.addUnsymmetric 0 2 9]
    ⟨2, [⟨[⟨1, 7⟩, ⟨2, 9⟩], 0, 7⟩, ⟨[], 0, 0⟩]⟩ (by decide) (by decide) 0).1

/-- C4: `exists(cellId0, cellId1)` returns true exactly when `cellId1` is
among the partners currently stored in `cellId0`'s list (so never a false
negative for a partner currently admitted there, and never true for a partner
not present); and it is directional: after an unsymmetric insertion it holds
in one direction and not the other. -/
theorem existsPairSpec :
    (∀ (st : SimilarPairsStore) (c0 c1 : CellId),
      SimilarPairs.existsPair st c0 c1 = true ↔
        c1 ∈ (st.cellListAt c0).slots.map Pair.cellId) ∧
    (∀ st' : SimilarPairsStore,
      SimilarPairs.addUnsymmetric (emptyStore 2 2) 0 1 3 = some st' →
        SimilarPairs.existsPair st' 0 1 = true ∧
        SimilarPairs.existsPair st' 1 0 = false) := by
  constructor
  · intro st c0 c1
    unfold SimilarPairs.existsPair
    rw [List.any_eq_true]
    constructor
    · rintro ⟨q, hq, hdec⟩
      have hqc : q.cellId = c1 := of_decide_eq_true hdec
      exact hqc ▸ List.mem_map_of_mem Pair.cellId hq
    · intro hc
      rcases List.mem_map.mp hc with ⟨q, hq, hqc⟩
      exact ⟨q, hq, decide_eq_true hqc⟩
  · intro st' h
    rw [show SimilarPairs.addUnsymmetric (emptyStore 2 2) 0 1 3
        = some (⟨2, [⟨[⟨1, 3⟩], 0, 3⟩, ⟨[], 0, 0⟩]⟩ : SimilarPairsStore) from by decide,
      Option.some.injEq] at h
    subst h
    exact ⟨by decide, by decide⟩

/-- Witness for C4 at a concrete store. -/
theorem existsPairSpec_witness :
    SimilarPairs.existsPair (⟨2, [⟨[⟨1, 3⟩], 0, 3⟩, ⟨[], 0, 0⟩]⟩ : SimilarPairsStore) 0 1 = true ∧
    SimilarPairs.existsPair (⟨2, [⟨[⟨1, 3⟩], 0, 3⟩, ⟨[], 0, 0⟩]⟩ : SimilarPairsStore) 1 0 = false :=
  existsPairSpec.2 ⟨2, [⟨[⟨1, 3⟩], 0, 3⟩, ⟨[], 0, 0⟩]⟩ (by decide)

/-- Reads past the end of a list return the default. -/
theorem getD_of_length_le {α : Type} (l : List α) (i : Nat) (d : α)
    (h : l.length ≤ i) : l.getD i d = d := by
  rw [List.getD_eq_getElem?_getD, List.getElem?_eq_none h]
  rfl

/-- C5, as stated, fails: not every SimilarPairs operation given a local cell
id outside `[0, cellCount)` faults. The read-only `exists` query — a linear
scan of `cellId0`'s list with no range check — returns the value `false` at
the out-of-range local id `5` of a 1-cell store instead of faulting. -/
theorem outOfRangeQueryReturnsValue :
    (emptyStore 1 1).cellCount ≤ 5 ∧
    SimilarPairs.existsPair (emptyStore 1 1) 5 0 = false := by decide

/-- C5 (amended): fail-fast on out-of-range local cell ids holds for
`getGlobalCellId` — which asserts `localCellId < cellSet.size()`, the
assertion never firing under the precondition `localCellId < cellCount`, where
a value is returned — and for every insertion operation: `addUnsymmetric` and
its `NoDuplicateCheck` / `UsingHeap` / `NoCheck` variants fault on an
out-of-range owner id, and symmetric `add` faults when either id is out of
range; but not for every operation: the read-only `exists` query does not
range-check and returns `false` for an out-of-range `cellId0`. -/
theorem outOfRangeFailFastAmended (cellSet : List CellId) (localCellId : CellId)
    (st : SimilarPairsStore) (c0 c1 : CellId) (s : CellSimilarity) :
    (cellSet.length ≤ localCellId → getGlobalCellId cellSet localCellId = none) ∧
    (localCellId < cellSet.length → ∃ g, getGlobalCellId cellSet localCellId = some g) ∧
    (st.cellCount ≤ c0 →
      SimilarPairs.addUnsymmetric st c0 c1 s = none ∧
      SimilarPairs.addUnsymmetricNoDuplicateCheck st c0 c1 s = none ∧
      SimilarPairs.addUnsymmetricNoDuplicateCheckUsingHeap st c0 c1 s = none ∧
      SimilarPairs.addUnsymmetricNoCheck st c0 c1 s = none ∧
      SimilarPairs.add st c0 c1 s = none) ∧
    (st.cellCount ≤ c1 → SimilarPairs.add st c0 c1 s = none) ∧
    (st.cellCount ≤ c0 → SimilarPairs.existsPair st c0 c1 = false) := by
  refine ⟨?_, ?_, ?_, ?_, ?_⟩
  · intro hle
    unfold getGlobalCellId
    rw [dif_neg (not_lt.mpr hle)]
  · intro hlt
    refine ⟨cellSet.get ⟨localCellId, hlt⟩, ?_⟩
    unfold getGlobalCellId
    rw [dif_pos hlt]
  · intro hc0
    have hn : ¬ c0 < st.cellCount := not_lt.mpr hc0
    refine ⟨?_, ?_, ?_, ?_, ?_⟩
    · unfold SimilarPairs.addUnsymmetric
      rw [if_neg hn]
    · unfold SimilarPairs.addUnsymmetricNoDuplicateCheck
      rw [if_neg hn]
    · unfold SimilarPairs.addUnsymmetricNoDuplicateCheckUsingHeap
      rw [if_neg hn]
    · unfold SimilarPairs.addUnsymmetricNoCheck
      rw [if_neg hn]
    · unfold SimilarPairs.add
      rw [if_neg (fun hcc => absurd hcc.1 hn)]
  · intro hc1
    unfold SimilarPairs.add
    rw [if_neg (fun hcc => absurd hcc.2 (not_lt.mpr hc1))]
  · intro hc0
    unfold SimilarPairs.existsPair SimilarPairsStore.cellListAt
    rw [getD_of_length_le _ _ _ hc0]
    rfl

/-- Witness for the amended C5 at concrete out-of-range and in-range ids. -/
theorem outOfRangeFailFastAmended_witness :
    getGlobalCellId [5, 7] 2 = none ∧
    SimilarPairs.addUnsymmetricNoCheck (emptyStore 1 1) 3 0 4 = none :=
  ⟨(outOfRangeFailFastAmended [5, 7] 2 (emptyStore 1 1) 3 0 4).1 (by decide),
   ((outOfRangeFailFastAmended [5, 7] 2 (emptyStore 1 1) 3 0 4).2.2.1
      (by decide)).2.2.2.1⟩

/-- C6: frame effect of unsymmetric insertion. Each of the four unsymmetric
insertion variants mutates only `cellId0`'s per-cell list and metadata: the
`CellList` (slots and `CellInfo`) of every other cell — in particular
`cellId1` when distinct from `cellId0` — is unchanged. -/
theorem addUnsymmetricFrame (st : SimilarPairsStore) (c0 c1 : CellId)
    (s : CellSimilarity) (j : Nat) (hj : j ≠ c0) :
    (∀ st', SimilarPairs.addUnsymmetric st c0 c1 s = some st' →
      st'.cellListAt j = st.cellListAt j) ∧
    (∀ st', SimilarPairs.addUnsymmetricNoDuplicateCheck st c0 c1 s = some st' →
      st'.cellListAt j = st.cellListAt j) ∧
    (∀ st', SimilarPairs.addUnsymmetricNoDuplicateCheckUsingHeap st c0 c1 s = some st' →
      st'.cellListAt j = st.cellListAt j) ∧
    (∀ st', SimilarPairs.addUnsymmetricNoCheck st c0 c1 s = some st' →
      st'.cellListAt j = st.cellListAt j) := by
  have hframe : ∀ f : CellList → CellList,
      (modifyCell st c0 f).cellListAt j = st.cellListAt j := by
    intro f
    show (st.cellLists.set c0 (f (st.cellListAt c0))).getD j emptyCellList
      = st.cellLists.getD j emptyCellList
    exact getD_set_ne _ _ _ _ _ (Ne.symm hj)
  refine ⟨?_, ?_, ?_, ?_⟩ <;> intro st' h
  · unfold SimilarPairs.addUnsymmetric at h
    by_cases hc : c0 < st.cellCount
    · rw [if_pos hc, Option.some.injEq] at h
      subst h
      exact hframe _
    · rw [if_neg hc] at h
      cases h
  · unfold SimilarPairs.addUnsymmetricNoDuplicateCheck at h
    by_cases hc : c0 < st.cellCount
    · rw [if_pos hc, Option.some.injEq] at h
      subst h
      exact hframe _
    · rw [if_neg hc] at h
      cases h
  · unfold SimilarPairs.addUnsymmetricNoDuplicateCheckUsingHeap at h
    by_cases hc : c0 < st.cellCount
    · rw [if_pos hc, Option.some.injEq] at h
      subst h
      exact hframe _
    · rw [if_neg hc] at h
      cases h
  · unfold SimilarPairs.addUnsymmetricNoCheck at h
    by_cases hc : c0 < st.cellCount
    · rw [if_pos hc, Option.some.injEq] at h
      subst h
      exact hframe _
    · rw [if_neg hc] at h
      cases h

/-- Witness for C6: a concrete unsymmetric insertion leaves the other cell
untouched. -/
theorem addUnsymmetricFrame_witness :
    ∃ st', SimilarPairs.addUnsymmetric (emptyStore 1 2) 0 1 4 = some st' ∧
      st'.cellListAt 1 = (emptyStore 1 2).cellListAt 1 :=
  ⟨⟨1, [⟨[⟨1, 4⟩], 0, 4⟩, ⟨[], 0, 0⟩]⟩, by decide,
   (addUnsymmetricFrame (emptyStore 1 2) 0 1 4 1 (by decide)).1 _ (by decide)⟩

/-- The centered second-moment accumulator of the Pearson computation:
`n·Σxᵢyᵢ − (Σxᵢ)(Σyᵢ)`, the covariance of the two aligned dense vectors up to
the positive factor `n`. Expression counts are modelled in exact integer
arithmetic. -/
def centeredDot (x y : List ℤ) : ℤ :=
  (x.length : ℤ) * (List.zipWith (· * ·) x y).sum - x.sum * y.sum

/-- The (scaled) variance of an expression vector over the chosen gene set:
`n·Σxᵢ² − (Σxᵢ)²`; it is zero exactly when the vector has zero variance. -/
def variance (x : List ℤ) : ℤ := centeredDot x x

/-- Modelled from the spec: `ExpressionMatrix::computeCellSimilarity`
(declared in `ExpressionMatrix.hpp` lines 350-355; its definition and the
`regressionCoefficient` helper are not among the available sources). Per §4.1
of the spec it returns the Pearson correlation coefficient of the two aligned
expression vectors, and in the degenerate case — zero variance in either
vector — it yields the defined sentinel value `0` instead of propagating an
invalid floating-point value; the result here lives in `ℝ`, which renders
"never NaN" as totality of the function. -/
noncomputable def computeCellSimilarity (x y : List ℤ) : ℝ :=
  if variance x = 0 ∨ variance y = 0 then 0
  else (centeredDot x y : ℝ) / Real.sqrt ((variance x : ℝ) * (variance y : ℝ))

/-- C7: whenever at least one of the two expression vectors has zero variance
over the chosen gene set, the similarity metric returns the defined sentinel
value `0` (and, being a total function into `ℝ`, never an invalid value). -/
theorem degenerateSimilarityZero (x y : List ℤ)
    (h : variance x = 0 ∨ variance y = 0) :
    computeCellSimilarity x y = 0 := by
  unfold computeCellSimilarity
  rw [if_pos h]

/-- Witness for C7: a constant expression vector has zero variance and the
similarity is the sentinel `0`. -/
theorem degenerateSimilarityZero_witness :
    variance [1, 1] = 0 ∧ computeCellSimilarity [1, 1] [2, 5] = 0 :=
  ⟨by decide, degenerateSimilarityZero [1, 1] [2, 5] (Or.inl (by decide))⟩

/-- The error taxonomy of §7 of the spec: missing-artifact errors are distinct
from precondition-violation errors. -/
inductive ArtifactError where
  | notFound
  | preconditionViolation
deriving DecidableEq, Repr

/-- Modelled from the spec: `ExpressionMatrix::removeSimilarPairs` (declared
in `ExpressionMatrix.hpp` lines 612-614 with the comment "This throws an
exception if the requested SimilarPairs object does not exist"; its definition
is not among the available sources). The state acted on is the set of names of
existing `SimilarPairs` artifacts; removal of an absent name fails with the
distinct not-found error, removal of a present name succeeds and removes it. -/
def removeSimilarPairs (names : List String) (name : String) :
    Except ArtifactError (List String) :=
  if name ∈ names then Except.ok (names.filter (fun m => decide (¬ m = name)))
  else Except.error ArtifactError.notFound

/-- C8: `removeSimilarPairs(name)` fails with the distinct not-found error —
distinguishable from precondition-violation errors — when no SimilarPairs
object with that name exists; when the object exists, removal succeeds and
the name is gone afterwards. -/
theorem removeSimilarPairsSpec (names : List String) (name : String) :
    (name ∉ names →
      removeSimilarPairs names name = Except.error ArtifactError.notFound) ∧
    (name ∈ names →
      ∃ ns, removeSimilarPairs names name = Except.ok ns ∧ name ∉ ns) ∧
    ArtifactError.notFound ≠ ArtifactError.preconditionViolation := by
  refine ⟨?_, ?_, by decide⟩
  · intro h
    unfold removeSimilarPairs
    rw [if_neg h]
  · intro h
    refine ⟨names.filter (fun m => decide (¬ m = name)), ?_, ?_⟩
    · unfold removeSimilarPairs
      rw [if_pos h]
    · intro hmem
      have h2 := (List.mem_filter.mp hmem).2
      exact absurd rfl (of_decide_eq_true h2)

/-- Witness for C8 at a concrete artifact-name table. -/
theorem removeSimilarPairsSpec_witness :
    removeSimilarPairs ["exact", "lsh"] "absent" = Except.error ArtifactError.notFound ∧
    ∃ ns, removeSimilarPairs ["exact", "lsh"] "lsh" = Except.ok ns ∧ "lsh" ∉ ns :=
  ⟨(removeSimilarPairsSpec ["exact", "lsh"] "absent").1 (by decide),
   (removeSimilarPairsSpec ["exact", "lsh"] "lsh").2.1 (by decide)⟩

/-- A vertex of the input `CellSimilarityGraph`: its cell id and the
`clusterId` stored by the clustering pass (`CellSimilarityGraphVertex`). -/
structure CellSimilarityGraphVertex where
  cellId : CellId
  clusterId : Nat
deriving DecidableEq, Repr

/-- A vertex of the `ClusterGraph`: the cluster id and the list of cells of
the cluster (`ClusterGraphVertex.clusterId`, `ClusterGraphVertex.cells`). -/
structure ClusterGraphVertex where
  clusterId : Nat
  cells : List CellId
deriving DecidableEq, Repr

/-- One iteration of the vertex loop of `ClusterGraph::ClusterGraph`
(`ClusterGraph.cpp` lines 32-55): if a vertex for the cell's `clusterId`
already exists, push the cell onto that vertex's `cells`; otherwise
`add_vertex` appends a new `ClusterGraph` vertex holding this cell.
The `vertexMap` lookup is rendered as a scan of the vertices built so far
(the map is only used for membership and lookup, and vertex descriptors are
positions in order of `add_vertex`). -/
def addCellVertex (acc : List ClusterGraphVertex) (v : CellSimilarityGraphVertex) :
    List ClusterGraphVertex :=
  if acc.any (fun w => decide (w.clusterId = v.clusterId)) then
    acc.map (fun w =>
      if w.clusterId = v.clusterId then ⟨w.clusterId, w.cells ++ [v.cellId]⟩ else w)
  else acc ++ [⟨v.clusterId, [v.cellId]⟩]

/-- The vertex-construction loop of `ClusterGraph::ClusterGraph`: fold the
input vertices, in iteration order, into the cluster-vertex list. -/
def clusterGraphVertices (vs : List CellSimilarityGraphVertex) :
    List ClusterGraphVertex :=
  vs.foldl addCellVertex []

/-- One step of first-seen deduplication of cluster ids. -/
def seenKeysStep (ks : List Nat) (v : CellSimilarityGraphVertex) : List Nat :=
  if v.clusterId ∈ ks then ks else ks ++ [v.clusterId]

/-- The distinct cluster ids of the input vertices, in first-seen order —
the order in which `add_vertex` creates the `ClusterGraph` vertices. -/
def seenKeys (vs : List CellSimilarityGraphVertex) : List Nat :=
  vs.foldl seenKeysStep []

/-- The cells of one cluster: the cell ids of the input vertices carrying the
given `clusterId`, in input order. -/
def clusterCells (vs : List CellSimilarityGraphVertex) (cid : Nat) : List CellId :=
  (vs.filter (fun v => decide (v.clusterId = cid))).map (fun v => v.cellId)

/-- The closed form of the vertex list built by the constructor loop. -/
def canonicalVertices (vs : List CellSimilarityGraphVertex) :
    List ClusterGraphVertex :=
  (seenKeys vs).map (fun cid => ⟨cid, clusterCells vs cid⟩)

/-- Membership in the first-seen key fold. -/
theorem mem_foldl_seenKeysStep (vs : List CellSimilarityGraphVertex) :
    ∀ (acc : List Nat) (c : Nat),
      c ∈ vs.foldl seenKeysStep acc ↔
        c ∈ acc ∨ c ∈ vs.map (fun v => v.clusterId) := by
  induction vs with
  | nil => intro acc c; simp
  | cons v rest ih =>
    intro acc c
    show c ∈ rest.foldl seenKeysStep (seenKeysStep acc v) ↔ _
    rw [ih]
    unfold seenKeysStep
    rw [List.map_cons, List.mem_cons]
    by_cases hv : v.clusterId ∈ acc
    · rw [if_pos hv]
      constructor
      · rintro (h | h)
        · exact Or.inl h
        · exact Or.inr (Or.inr h)
      · rintro (h | h | h)
        · exact Or.inl h
        · rw [h]; exact Or.inl hv
        · exact Or.inr h
    · rw [if_neg hv]
      rw [List.mem_append, List.mem_singleton]
      constructor
      · rintro ((h | h) | h)
        · exact Or.inl h
        · exact Or.inr (Or.inl h)
        · exact Or.inr (Or.inr h)
      · rintro (h | h | h)
        · exact Or.inl (Or.inl h)
        · exact Or.inl (Or.inr h)
        · exact Or.inr h

/-- The first-seen key fold preserves duplicate-freedom. -/
theorem nodup_foldl_seenKeysStep (vs : List CellSimilarityGraphVertex) :
    ∀ acc : List Nat, acc.Nodup → (vs.foldl seenKeysStep acc).Nodup := by
  induction vs with
  | nil => intro acc h; exact h
  | cons v rest ih =>
    intro acc h
    show (rest.foldl seenKeysStep (seenKeysStep acc v)).Nodup
    apply ih
    unfold seenKeysStep
    by_cases hv : v.clusterId ∈ acc
    · rw [if_pos hv]; exact h
    · rw [if_neg hv]
      refine List.nodup_append.mpr ⟨h, List.nodup_singleton _, ?_⟩
      intro a ha hb
      rw [List.mem_singleton] at hb
      rw [hb] at ha
      exact hv ha

/-- The distinct cluster ids are duplicate-free. -/
theorem seenKeys_nodup (vs : List CellSimilarityGraphVertex) :
    (seenKeys vs).Nodup :=
  nodup_foldl_seenKeysStep vs [] List.nodup_nil

/-- Membership in the distinct cluster ids. -/
theorem mem_seenKeys (vs : List CellSimilarityGraphVertex) (c : Nat) :
    c ∈ seenKeys vs ↔ c ∈ vs.map (fun v => v.clusterId) := by
  rw [show seenKeys vs = vs.foldl seenKeysStep [] from rfl,
    mem_foldl_seenKeysStep]
  simp

/-- Appending one input vertex extends the first-seen keys by one step. -/
theorem seenKeys_append_singleton (pre : List CellSimilarityGraphVertex)
    (v : CellSimilarityGraphVertex) :
    seenKeys (pre ++ [v]) = seenKeysStep (seenKeys pre) v := by
  unfold seenKeys
  rw [List.foldl_append]
  rfl

/-- Appending one input vertex appends its cell to its own cluster's cells. -/
theorem clusterCells_append_self (pre : List CellSimilarityGraphVertex)
    (v : CellSimilarityGraphVertex) (cid : Nat) (h : v.clusterId = cid) :
    clusterCells (pre ++ [v]) cid = clusterCells pre cid ++ [v.cellId] := by
  unfold clusterCells
  rw [List.filter_append, List.map_append]
  congr 1
  have : List.filter (fun w => decide (w.clusterId = cid)) [v] = [v] := by
    rw [List.filter_cons, if_pos (by simpa using h)]
    rfl
  rw [this]
  rfl

/-- Appending one input vertex leaves the cells of other clusters alone. -/
theorem clusterCells_append_other (pre : List CellSimilarityGraphVertex)
    (v : CellSimilarityGraphVertex) (cid : Nat) (h : ¬ v.clusterId = cid) :
    clusterCells (pre ++ [v]) cid = clusterCells pre cid := by
  unfold clusterCells
  rw [List.filter_append]
  have : List.filter (fun w => decide (w.clusterId = cid)) [v] = [] := by
    rw [List.filter_cons, if_neg (by simpa using h)]
    rfl
  rw [this, List.append_nil]

/-- The scan of the built vertices finds a cluster id exactly when it has
been seen. -/
theorem any_canonical_clusterId (K : List Nat) (g : Nat → List CellId) (c : Nat) :
    ((K.map (fun cid => (⟨cid, g cid⟩ : ClusterGraphVertex))).any
      (fun w => decide (w.clusterId = c)) = true) ↔ c ∈ K := by
  rw [List.any_eq_true]
  constructor
  · rintro ⟨w, hw, hdec⟩
    rcases List.mem_map.mp hw with ⟨cid, hcid, hfw⟩
    subst hfw
    have h1 : cid = c := of_decide_eq_true hdec
    rw [← h1]
    exact hcid
  · intro hc
    exact ⟨⟨c, g c⟩, List.mem_map_of_mem _ hc, by simp⟩

/-- One constructor iteration, in closed form. -/
theorem addCellVertex_canonical (pre : List CellSimilarityGraphVertex)
    (v : CellSimilarityGraphVertex) :
    addCellVertex (canonicalVertices pre) v = canonicalVertices (pre ++ [v]) := by
  unfold canonicalVertices
  rw [seenKeys_append_singleton]
  unfold addCellVertex seenKeysStep
  by_cases hv : v.clusterId ∈ seenKeys pre
  · rw [if_pos hv,
      if_pos ((any_canonical_clusterId (seenKeys pre) _ v.clusterId).mpr hv)]
    rw [List.map_map]
    apply List.map_congr_left
    intro cid _
    show (if cid = v.clusterId
        then (⟨cid, clusterCells pre cid ++ [v.cellId]⟩ : ClusterGraphVertex)
        else ⟨cid, clusterCells pre cid⟩)
      = ⟨cid, clusterCells (pre ++ [v]) cid⟩
    by_cases hc : cid = v.clusterId
    · rw [if_pos hc, clusterCells_append_self pre v cid hc.symm]
    · rw [if_neg hc, clusterCells_append_other pre v cid (fun he => hc he.symm)]
  · rw [if_neg hv,
      if_neg (fun hany => hv ((any_canonical_clusterId (seenKeys pre) _ v.clusterId).mp hany))]
    rw [List.map_append]
    congr 1
    · apply List.map_congr_left
      intro cid hcid
      have hne : ¬ v.clusterId = cid := by
        intro he
        rw [he] at hv
        exact hv hcid
      rw [clusterCells_append_other pre v cid hne]
    · rw [List.map_singleton, clusterCells_append_self pre v v.clusterId rfl]
      have hnil : clusterCells pre v.clusterId = [] := by
        unfold clusterCells
        rw [List.filter_eq_nil_iff.mpr ?_]
        · rfl
        · intro w hw hdec
          have hwc : w.clusterId = v.clusterId := of_decide_eq_true hdec
          apply hv
          rw [mem_seenKeys]
          rw [← hwc]
          exact List.mem_map_of_mem _ hw
      rw [hnil]
      rfl

/-- The constructor loop, in closed form, from any processed prefix. -/
theorem foldl_addCellVertex_canonical (vs : List CellSimilarityGraphVertex) :
    ∀ pre : List CellSimilarityGraphVertex,
      vs.foldl addCellVertex (canonicalVertices pre) = canonicalVertices (pre ++ vs) := by
  induction vs with
  | nil => intro pre; rw [List.append_nil]; rfl
  | cons v rest ih =>
    intro pre
    show rest.foldl addCellVertex (addCellVertex (canonicalVertices pre) v) = _
    rw [addCellVertex_canonical, ih (pre ++ [v]), List.append_assoc,
      List.singleton_append]

/-- The vertex list built by the constructor equals its closed form. -/
theorem clusterGraphVertices_eq_canonical (vs : List CellSimilarityGraphVertex) :
    clusterGraphVertices vs = canonicalVertices vs := by
  have h := foldl_addCellVertex_canonical vs []
  rw [List.nil_append] at h
  exact h

/-- One iteration of the edge loop of `ClusterGraph::ClusterGraph`
(`ClusterGraph.cpp` lines 61-82): find the cluster vertices of the two
endpoints of the input edge (vertex descriptors are positions in first-seen
order of the cluster ids); if they are distinct, `add_edge` — which, the edge
container being `boost::setS` on this undirected graph, does not create an
edge that already exists in either orientation. -/
def addClusterEdge (keys : List Nat) (vs : List CellSimilarityGraphVertex)
    (acc : List (Nat × Nat)) (e : Nat × Nat) : List (Nat × Nat) :=
  let v0 := keys.indexOf (vs.getD e.1 ⟨0, 0⟩).clusterId
  let v1 := keys.indexOf (vs.getD e.2 ⟨0, 0⟩).clusterId
  if v0 = v1 then acc
  else if (v0, v1) ∈ acc ∨ (v1, v0) ∈ acc then acc
  else acc ++ [(v0, v1)]

/-- The edge-construction loop of `ClusterGraph::ClusterGraph`: fold the input
edges, in iteration order, into the cluster-edge list. -/
def clusterGraphEdges (vs : List CellSimilarityGraphVertex)
    (es : List (Nat × Nat)) : List (Nat × Nat) :=
  es.foldl (addClusterEdge (seenKeys vs) vs) []

/-- The edge-list invariant: no self-loops, and no two edges identical or
mutually reversed. -/
def edgeListOk (acc : List (Nat × Nat)) : Prop :=
  (∀ e ∈ acc, e.1 ≠ e.2) ∧
  List.Pairwise (fun e f => e ≠ f ∧ (e.2, e.1) ≠ f) acc

/-- One edge-loop iteration preserves the edge-list invariant. -/
theorem edgeListOk_addClusterEdge (keys : List Nat)
    (vs : List CellSimilarityGraphVertex) (acc : List (Nat × Nat))
    (e : Nat × Nat) (h : edgeListOk acc) :
    edgeListOk (addClusterEdge keys vs acc e) := by
  unfold addClusterEdge
  by_cases h0 : keys.indexOf (vs.getD e.1 ⟨0, 0⟩).clusterId
      = keys.indexOf (vs.getD e.2 ⟨0, 0⟩).clusterId
  · rw [if_pos h0]
    exact h
  · rw [if_neg h0]
    by_cases h1 : (keys.indexOf (vs.getD e.1 ⟨0, 0⟩).clusterId,
        keys.indexOf (vs.getD e.2 ⟨0, 0⟩).clusterId) ∈ acc ∨
        (keys.indexOf (vs.getD e.2 ⟨0, 0⟩).clusterId,
        keys.indexOf (vs.getD e.1 ⟨0, 0⟩).clusterId) ∈ acc
    · rw [if_pos h1]
      exact h
    · rw [if_neg h1]
      push_neg at h1
      obtain ⟨hno, hnorev⟩ := h1
      constructor
      · intro f hf
        rcases List.mem_append.mp hf with hf | hf
        · exact h.1 f hf
        · rw [List.mem_singleton.mp hf]
          exact h0
      · rw [List.pairwise_append]
        refine ⟨h.2, List.pairwise_singleton _ _, ?_⟩
        intro a ha b hb
        rw [List.mem_singleton] at hb
        subst hb
        constructor
        · intro hab
          rw [hab] at ha
          exact hno ha
        · intro hab
          have ha2 : a = (keys.indexOf (vs.getD e.2 ⟨0, 0⟩).clusterId,
              keys.indexOf (vs.getD e.1 ⟨0, 0⟩).clusterId) := by
            have h1 : a.2 = keys.indexOf (vs.getD e.1 ⟨0, 0⟩).clusterId :=
              congrArg Prod.fst hab
            have h2 : a.1 = keys.indexOf (vs.getD e.2 ⟨0, 0⟩).clusterId :=
              congrArg Prod.snd hab
            rw [← h1, ← h2]
          rw [ha2] at ha
          exact hnorev ha

/-- The edge loop preserves the edge-list invariant from any accumulator. -/
theorem edgeListOk_foldl (keys : List Nat) (vs : List CellSimilarityGraphVertex)
    (es : List (Nat × Nat)) :
    ∀ acc : List (Nat × Nat), edgeListOk acc →
      edgeListOk (es.foldl (addClusterEdge keys vs) acc) := by
  induction es with
  | nil => intro acc h; exact h
  | cons e rest ih =>
    intro acc h
    exact ih _ (edgeListOk_addClusterEdge keys vs acc e h)

/-- C10: the `ClusterGraph` constructor produces exactly one vertex per
distinct `clusterId` occurring among the input vertices (first conjuncts:
the built cluster ids are duplicate-free and are exactly the input cluster
ids); every input cell id appears in the `cells` list of exactly the vertex
of its cluster (each built vertex's `cells` list is exactly the cell ids of
the input vertices carrying its cluster id); and the built edge list has no
self-loop — an edge is added only when the two endpoint clusters are
distinct — and no parallel edges between the same vertex pair in either
orientation. -/
theorem clusterGraphConstruction (vs : List CellSimilarityGraphVertex)
    (es : List (Nat × Nat)) :
    ((clusterGraphVertices vs).map (fun w => w.clusterId)).Nodup ∧
    (∀ cid : Nat,
      cid ∈ (clusterGraphVertices vs).map (fun w => w.clusterId) ↔
      cid ∈ vs.map (fun v => v.clusterId)) ∧
    (∀ w ∈ clusterGraphVertices vs,
      w.cells = (vs.filter (fun v => decide (v.clusterId = w.clusterId))).map
        (fun v => v.cellId)) ∧
    (∀ e ∈ clusterGraphEdges vs es, e.1 ≠ e.2) ∧
    List.Pairwise (fun e f => e ≠ f ∧ (e.2, e.1) ≠ f) (clusterGraphEdges vs es) := by
  have hkeys : (clusterGraphVertices vs).map (fun w => w.clusterId) = seenKeys vs := by
    rw [clusterGraphVertices_eq_canonical]
    unfold canonicalVertices
    rw [List.map_map]
    show (seenKeys vs).map (fun cid => cid) = seenKeys vs
    exact List.map_id' (seenKeys vs)
  have hedges : edgeListOk (clusterGraphEdges vs es) := by
    unfold clusterGraphEdges
    exact edgeListOk_foldl (seenKeys vs) vs es []
      ⟨fun e he => absurd he (List.not_mem_nil e), List.Pairwise.nil⟩
  refine ⟨?_, ?_, ?_, hedges.1, hedges.2⟩
  · rw [hkeys]
    exact seenKeys_nodup vs
  · intro cid
    rw [hkeys]
    exact mem_seenKeys vs cid
  · intro w hw
    rw [clusterGraphVertices_eq_canonical] at hw
    rcases List.mem_map.mp hw with ⟨cid, hcid, hfw⟩
    subst hfw
    rfl

/-- Witness for C10 at a concrete cell-similarity graph with two clusters. -/
theorem clusterGraphConstruction_witness :
    (⟨0, [10, 12]⟩ : ClusterGraphVertex).cells
      = (([⟨10, 0⟩, ⟨11, 1⟩, ⟨12, 0⟩] : List CellSimilarityGraphVertex).filter
          (fun v => decide (v.clusterId = (⟨0, [10, 12]⟩ : ClusterGraphVertex).clusterId))).map
        (fun v => v.cellId) ∧
    ((0, 1) : Nat × Nat).1 ≠ ((0, 1) : Nat × Nat).2 :=
  ⟨(clusterGraphConstruction [⟨10, 0⟩, ⟨11, 1⟩, ⟨12, 0⟩] [(0, 1)]).2.2.1
      ⟨0, [10, 12]⟩ (by decide),
   (clusterGraphConstruction [⟨10, 0⟩, ⟨11, 1⟩, ⟨12, 0⟩]
      [(0, 1), (1, 2), (0, 2), (1, 0)]).2.2.2.1 (0, 1) (by decide)⟩

end ExpressionMatrix2
